import Mathlib

/-!
Verification development for the nexora-rs on-disk storage engine.

The definitions below are a shallow embedding of the Rust sources:
  - `src/utils/encoding/endian/endian.rs`  (byte codec)
  - `src/models/file_layout.rs`            (layout model)
  - `src/models/schema_builder/builder.rs` (schema builder)
  - `src/storage_engine/engine.rs`         (storage engine)

Bytes are modelled as `Nat` values (< 256 where the Rust type is `u8`),
buffers and the file as `List Nat`, machine integers as `Nat` with explicit
`< 2 ^ 64` bounds where a claim depends on the `u64` range.  Fallible
operations return `Option`/`Except`; the unbounded chunk-traversal loop of
`insert_offset_item` takes an explicit fuel argument, `none` standing for
fuel exhaustion (non-termination).
-/

namespace Nexora

set_option maxRecDepth 4000

/-! ## Constants (file_layout.rs lines 6-11) -/

def PAGE_SIZE : Nat := 4096

def INVALID_OFFSET : Nat := 2 ^ 64 - 1

/-- Magic signature `b"NXRv0\x5c0"`: bytes `4E 58 52 76 30 00`. -/
def FILE_HEADER_MAGIC : List Nat := [78, 88, 82, 118, 48, 0]

def MAX_PROPERTIES_COUNT : Nat := 120

/-! ## Byte codec (endian.rs)

Little-endian encoding of a `Nat` into `n` bytes, and the decoding used by
`u64::from_le_bytes` / `u16::from_le_bytes`. -/

/-- Little-endian bytes of `v`, `n` bytes long (`v.to_le_bytes`). -/
def leBytes : Nat → Nat → List Nat
  | 0, _ => []
  | n + 1, v => v % 256 :: leBytes n (v / 256)

/-- Little-endian value of a byte list (`uN::from_le_bytes`). -/
def leDecode : List Nat → Nat
  | [] => 0
  | b :: l => b + 256 * leDecode l

def u64leBytes (v : Nat) : List Nat := leBytes 8 v

def u16leBytes (v : Nat) : List Nat := leBytes 2 v

/-- Rust `buf.get(a..b)`: `some` of the sub-slice when `a ≤ b ∧ b ≤ buf.len()`,
`none` otherwise. -/
def sliceRange (buf : List Nat) (a b : Nat) : Option (List Nat) :=
  if a ≤ b ∧ b ≤ buf.length then some ((buf.drop a).take (b - a)) else none

/-- endian.rs `read_u64_le`: `buf.get(offset..offset+8).map(u64::from_le_bytes)`. -/
def read_u64_le (buf : List Nat) (offset : Nat) : Option Nat :=
  (sliceRange buf offset (offset + 8)).map leDecode

/-- endian.rs `read_u16_le`: `buf.get(offset..offset+2).map(u16::from_le_bytes)`. -/
def read_u16_le (buf : List Nat) (offset : Nat) : Option Nat :=
  (sliceRange buf offset (offset + 2)).map leDecode

/-- endian.rs `read_u8`: `buf.get(offset).copied()`. -/
def read_u8 (buf : List Nat) (offset : Nat) : Option Nat :=
  buf.get? offset

/-- endian.rs `read_bytes`: `buf.get(offset..offset+len)`. -/
def read_bytes (buf : List Nat) (offset len : Nat) : Option (List Nat) :=
  sliceRange buf offset (offset + len)

/-! ## Layout model (file_layout.rs)

Rust `_reserved`/`_pad0` fields are kept, named `reserved`/`pad0`. -/

structure NexoraHeader where
  footer_offset : Nat
  created_unix : Nat
  magic : List Nat
  version : Nat
  flags : Nat
  reserved : List Nat
deriving Repr, DecidableEq

/-- Default for `NexoraHeader` (file_layout.rs lines 25-36). -/
def NexoraHeader.default : NexoraHeader :=
  { footer_offset := INVALID_OFFSET
    created_unix := 0
    magic := FILE_HEADER_MAGIC
    version := 0
    flags := 0
    reserved := List.replicate 4070 0 }

/-- `NexoraHeader::verify_magic` (file_layout.rs lines 39-41). -/
def NexoraHeader.verify_magic (raw_magic : List Nat) : Bool :=
  raw_magic = FILE_HEADER_MAGIC

/-- `NexoraHeader::deserialize` (file_layout.rs lines 43-76): sequential
little-endian fields at offsets 0, 8, 16, 22, 24, 26 of a 4096-byte page. -/
def NexoraHeader.deserialize (buf : List Nat) : NexoraHeader :=
  { footer_offset := (read_u64_le buf 0).getD 0
    created_unix := (read_u64_le buf 8).getD 0
    magic := (buf.drop 16).take 6
    version := (read_u16_le buf 22).getD 0
    flags := (read_u16_le buf 24).getD 0
    reserved := (buf.drop 26).take 4070 }

structure OffsetMetadataTable where
  nb_total_items : Nat
  base_chunk_offset : Nat
deriving Repr, DecidableEq

def OffsetMetadataTable.default : OffsetMetadataTable :=
  { nb_total_items := 0, base_chunk_offset := 0 }

structure NexoraFooter where
  name_table_offset : OffsetMetadataTable
  node_schema_offset : OffsetMetadataTable
  edge_schema_offset : OffsetMetadataTable
  schema_properties_offset : OffsetMetadataTable
  metadata_offset : OffsetMetadataTable
  indices_offset : OffsetMetadataTable
  nodes_offset : OffsetMetadataTable
  edges_offset : OffsetMetadataTable
  reserved : List Nat
deriving Repr, DecidableEq

def NexoraFooter.default : NexoraFooter :=
  { name_table_offset := OffsetMetadataTable.default
    node_schema_offset := OffsetMetadataTable.default
    edge_schema_offset := OffsetMetadataTable.default
    schema_properties_offset := OffsetMetadataTable.default
    metadata_offset := OffsetMetadataTable.default
    indices_offset := OffsetMetadataTable.default
    nodes_offset := OffsetMetadataTable.default
    edges_offset := OffsetMetadataTable.default
    reserved := List.replicate 3968 0 }

/-- The eight section entries of a footer, in the fixed on-disk order
(file_layout.rs lines 94-104, spec section 6). -/
def NexoraFooter.sections (f : NexoraFooter) : List OffsetMetadataTable :=
  [f.name_table_offset, f.node_schema_offset, f.edge_schema_offset,
   f.schema_properties_offset, f.metadata_offset, f.indices_offset,
   f.nodes_offset, f.edges_offset]

/-- `parse_offset_table` inside `NexoraFooter::deserialize`
(file_layout.rs lines 136-144). -/
def parse_offset_table (bytes : List Nat) : OffsetMetadataTable :=
  { nb_total_items := leDecode (bytes.take 8)
    base_chunk_offset := leDecode ((bytes.drop 8).take 8) }

/-- `NexoraFooter::deserialize` (file_layout.rs lines 123-169): eight
consecutive 16-byte tables, then 3968 reserved bytes. -/
def NexoraFooter.deserialize (buf : List Nat) : NexoraFooter :=
  { name_table_offset := parse_offset_table ((buf.drop 0).take 16)
    node_schema_offset := parse_offset_table ((buf.drop 16).take 16)
    edge_schema_offset := parse_offset_table ((buf.drop 32).take 16)
    schema_properties_offset := parse_offset_table ((buf.drop 48).take 16)
    metadata_offset := parse_offset_table ((buf.drop 64).take 16)
    indices_offset := parse_offset_table ((buf.drop 80).take 16)
    nodes_offset := parse_offset_table ((buf.drop 96).take 16)
    edges_offset := parse_offset_table ((buf.drop 112).take 16)
    reserved := (buf.drop 128).take 3968 }

structure OffsetItem where
  id : Nat
  offset : Nat
deriving Repr, DecidableEq

/-- Default for `OffsetItem` (file_layout.rs lines 183-190). -/
def OffsetItem.default : OffsetItem :=
  { id := 0, offset := INVALID_OFFSET }

structure OffsetTableChunk where
  nb_items : Nat
  pad0 : List Nat
  previous_chunk : Nat
  next_chunk : Nat
  offset_items : List OffsetItem
  reserved : List Nat
deriving Repr, DecidableEq

/-- Default for `OffsetTableChunk` (file_layout.rs lines 206-217). -/
def OffsetTableChunk.default : OffsetTableChunk :=
  { nb_items := 0
    pad0 := List.replicate 7 0
    previous_chunk := INVALID_OFFSET
    next_chunk := INVALID_OFFSET
    offset_items := List.replicate 254 OffsetItem.default
    reserved := List.replicate 8 0 }

/-- One 16-byte `OffsetItem` record as written by
`OffsetTableChunk::serialize` (file_layout.rs lines 243-248). -/
def OffsetItem.serializeBytes (it : OffsetItem) : List Nat :=
  u64leBytes it.id ++ u64leBytes it.offset

/-- `OffsetTableChunk::serialize` (file_layout.rs lines 222-255):
`nb_items`(1) ++ pad(7) ++ `previous_chunk`(8) ++ `next_chunk`(8) ++
254 16-byte items ++ reserved(8). -/
def OffsetTableChunk.serialize (c : OffsetTableChunk) : List Nat :=
  c.nb_items ::
    (c.pad0 ++
      (u64leBytes c.previous_chunk ++
        (u64leBytes c.next_chunk ++
          ((c.offset_items.map OffsetItem.serializeBytes).flatten ++ c.reserved))))

/-- The item-reading loop of `OffsetTableChunk::deserialize`
(file_layout.rs lines 278-287); the Rust `.unwrap()` of an in-bounds
`read_u64_le` is modelled by `Option.getD 0`. -/
def readOffsetItems (buf : List Nat) (offset : Nat) : Nat → List OffsetItem
  | 0 => []
  | n + 1 =>
    { id := (read_u64_le buf offset).getD 0
      offset := (read_u64_le buf (offset + 8)).getD 0 } ::
      readOffsetItems buf (offset + 16) n

/-- `OffsetTableChunk::deserialize` (file_layout.rs lines 257-308). -/
def OffsetTableChunk.deserialize (buf : List Nat) : OffsetTableChunk :=
  { nb_items := (read_u8 buf 0).getD 0
    pad0 := (buf.drop 1).take 7
    previous_chunk := (read_u64_le buf 8).getD 0
    next_chunk := (read_u64_le buf 16).getD 0
    offset_items := readOffsetItems buf 24 254
    reserved := (buf.drop 4088).take 8 }

structure NexoraFile where
  header : NexoraHeader
  footer : NexoraFooter
deriving Repr, DecidableEq

/-- Default for `NexoraFile` (file_layout.rs lines 483-563): sequential
page-sized offsets starting right after the header, the footer offset
landing past the eighth chunk page. -/
def NexoraFile.default : NexoraFile :=
  let o0 := PAGE_SIZE
  let name_table_offset : OffsetMetadataTable := ⟨0, o0⟩
  let o1 := o0 + PAGE_SIZE
  let node_schema_offset : OffsetMetadataTable := ⟨0, o1⟩
  let o2 := o1 + PAGE_SIZE
  let edge_schema_offset : OffsetMetadataTable := ⟨0, o2⟩
  let o3 := o2 + PAGE_SIZE
  let schema_properties_offset : OffsetMetadataTable := ⟨0, o3⟩
  let o4 := o3 + PAGE_SIZE
  let metadata_offset : OffsetMetadataTable := ⟨0, o4⟩
  let o5 := o4 + PAGE_SIZE
  let indices_offset : OffsetMetadataTable := ⟨0, o5⟩
  let o6 := o5 + PAGE_SIZE
  let nodes_offset : OffsetMetadataTable := ⟨0, o6⟩
  let o7 := o6 + PAGE_SIZE
  let edges_offset : OffsetMetadataTable := ⟨0, o7⟩
  let o8 := o7 + PAGE_SIZE
  { header :=
      { footer_offset := o8
        created_unix := 0
        magic := FILE_HEADER_MAGIC
        version := 0
        flags := 0
        reserved := List.replicate 4070 0 }
    footer :=
      { name_table_offset, node_schema_offset, edge_schema_offset,
        schema_properties_offset, metadata_offset, indices_offset,
        nodes_offset, edges_offset, reserved := List.replicate 3968 0 } }

/-- A 16-byte footer table entry as written by the `write_offset_table`
macro of `NexoraFile::serialize` (file_layout.rs lines 591-598). -/
def OffsetMetadataTable.serializeBytes (t : OffsetMetadataTable) : List Nat :=
  u64leBytes t.nb_total_items ++ u64leBytes t.base_chunk_offset

/-- `NexoraFile::serialize` (file_layout.rs lines 568-615): header fields in
order (`footer_offset` first, magic only at byte 16), then eight default
`OffsetTableChunk` pages, then the eight footer entries and footer padding;
40960 bytes in total. -/
def NexoraFile.serialize (f : NexoraFile) : List Nat :=
  u64leBytes f.header.footer_offset ++
    (u64leBytes f.header.created_unix ++
      (f.header.magic ++
        (u16leBytes f.header.version ++
          (u16leBytes f.header.flags ++
            (f.header.reserved ++
              ((List.replicate 8 OffsetTableChunk.default.serialize).flatten ++
                (f.footer.name_table_offset.serializeBytes ++
                  (f.footer.node_schema_offset.serializeBytes ++
                    (f.footer.edge_schema_offset.serializeBytes ++
                      (f.footer.schema_properties_offset.serializeBytes ++
                        (f.footer.metadata_offset.serializeBytes ++
                          (f.footer.indices_offset.serializeBytes ++
                            (f.footer.nodes_offset.serializeBytes ++
                              (f.footer.edges_offset.serializeBytes ++
                                f.footer.reserved))))))))))))))

/-! ## Schema builder (builder.rs) -/

inductive PropertyType where
  | Int8 | Int16 | Int32 | Int64
  | Float8 | Float16 | Float32 | Float64
  | String32 | String64 | String512
  | Page | Bool | InvalidType
deriving Repr, DecidableEq

structure PropertyBuilder where
  name : String
  type : PropertyType
  optional : Bool
deriving Repr, DecidableEq

structure NodeSchemaBuilder where
  id : Nat
  properties : List PropertyBuilder
deriving Repr, DecidableEq

structure EdgeSchemaBuilder where
  id : Nat
  properties : List PropertyBuilder
deriving Repr, DecidableEq

/-- `NodeSchemaBuilder::property` (builder.rs lines 53-59): the Rust panic
on a full builder is modelled as `none`. -/
def NodeSchemaBuilder.property (b : NodeSchemaBuilder) (prop : PropertyBuilder) :
    Option NodeSchemaBuilder :=
  if MAX_PROPERTIES_COUNT ≤ b.properties.length then none
  else some { b with properties := b.properties ++ [prop] }

/-- `EdgeSchemaBuilder::property` (builder.rs lines 77-83). -/
def EdgeSchemaBuilder.property (b : EdgeSchemaBuilder) (prop : PropertyBuilder) :
    Option EdgeSchemaBuilder :=
  if MAX_PROPERTIES_COUNT ≤ b.properties.length then none
  else some { b with properties := b.properties ++ [prop] }

/-! ## Storage engine (engine.rs)

The open file is a byte list; `read_exact` at an absolute position after a
`seek` is `readExact`, `write_all` is `writeAll` (extending the file, with a
zero gap, when the write lands past the end).  Cursor positions are not part
of the state: every engine operation seeks explicitly before each access. -/

inductive CorruptedFileError where
  | InvalidMagicValue
  | InvalidOffsetValue
deriving Repr, DecidableEq

inductive StorageError where
  | Io
  | Corrupted (e : CorruptedFileError)
deriving Repr, DecidableEq

/-- Seek to `off` then `read_exact` a buffer of `len` bytes; fails (I/O
error) when the file is too short. -/
def readExact (disk : List Nat) (off len : Nat) : Option (List Nat) :=
  if off + len ≤ disk.length then some ((disk.drop off).take len) else none

/-- Seek to `off` then `write_all data`: bytes `off..off+len` are replaced,
the file grows (zero-filled gap) if the write reaches past the end. -/
def writeAll (disk : List Nat) (off : Nat) (data : List Nat) : List Nat :=
  (disk.take off ++ List.replicate (off - disk.length) 0) ++
    (data ++ disk.drop (off + data.length))

/-- In-memory state of a `StorageEngine`: the `NexoraFile` mirror
(header + footer) and the file contents. -/
structure EngineState where
  header : NexoraHeader
  footer : NexoraFooter
  disk : List Nat
deriving Repr, DecidableEq

/-- Result of `StorageEngine::read_offset_table` (engine.rs lines 71-81):
rejects the sentinel offset before any disk access, otherwise reads and
decodes one page. -/
def read_offset_table_result (disk : List Nat) (offset : Nat) :
    Except StorageError OffsetTableChunk :=
  if offset = INVALID_OFFSET then .error (.Corrupted .InvalidOffsetValue)
  else
    match readExact disk offset PAGE_SIZE with
    | none => .error .Io
    | some raw => .ok (OffsetTableChunk.deserialize raw)

/-- `StorageEngine::read_offset_table`: the Rust method takes `&mut self`
but only moves the cursor, so the state comes back unchanged next to the
result. -/
def read_offset_table (s : EngineState) (offset : Nat) :
    Except StorageError OffsetTableChunk × EngineState :=
  (read_offset_table_result s.disk offset, s)

/-- `StorageEngine::log_offset_chunk` (engine.rs lines 84-93): serializes the
chunk and writes it at `offset`.  The closing statement of the Rust body,
`self.log_footer_chunk();` on line 91, lacks `.await`: the async call only
builds a future which is immediately dropped, so the footer write inside
`log_footer_chunk` never executes and the only effect is the chunk write. -/
def log_offset_chunk (s : EngineState) (chunk : OffsetTableChunk) (offset : Nat) :
    EngineState :=
  { s with disk := writeAll s.disk offset chunk.serialize }

/-- `StorageEngine::get_new_offset_table_space` (engine.rs lines 106-111):
hands out the current in-memory `header.footer_offset` and advances it by
one page. -/
def get_new_offset_table_space (s : EngineState) : Nat × EngineState :=
  (s.header.footer_offset,
   { s with header :=
      { s.header with footer_offset := s.header.footer_offset + PAGE_SIZE } })

/-- The `loop` of `StorageEngine::insert_offset_item` (engine.rs lines
119-155), with fuel for the unbounded traversal (`none` = fuel ran out). -/
def insertLoop (item : OffsetItem) :
    Nat → EngineState → Nat → Option (Except StorageError Unit × EngineState)
  | 0, _, _ => none
  | fuel + 1, s, offset =>
    match read_offset_table s offset with
    | (.error e, s1) => some (.error e, s1)
    | (.ok chunk, s1) =>
      if chunk.nb_items < chunk.offset_items.length then
        let chunk1 :=
          { chunk with
            offset_items := chunk.offset_items.set chunk.nb_items item
            nb_items := chunk.nb_items + 1 }
        some (.ok (), log_offset_chunk s1 chunk1 offset)
      else if chunk.next_chunk = INVALID_OFFSET then
        let newChunk :=
          { OffsetTableChunk.default with
            previous_chunk := offset
            offset_items := OffsetTableChunk.default.offset_items.set 0 item
            nb_items := 1 }
        let alloc := get_new_offset_table_space s1
        let chunk1 := { chunk with next_chunk := alloc.1 }
        let s2 := log_offset_chunk alloc.2 chunk1 offset
        let s3 := log_offset_chunk s2 newChunk alloc.1
        some (.ok (), s3)
      else insertLoop item fuel s1 chunk.next_chunk

/-- `StorageEngine::insert_offset_item` (engine.rs lines 114-156): the
sentinel `start_offset` is rejected before the loop runs. -/
def insert_offset_item (s : EngineState) (offset : Nat) (item : OffsetItem)
    (fuel : Nat) : Option (Except StorageError Unit × EngineState) :=
  if offset = INVALID_OFFSET then some (.error (.Corrupted .InvalidOffsetValue), s)
  else insertLoop item fuel s offset

/-- `StorageEngine::close` (engine.rs lines 158-160): flushes only; no state
change. -/
def close (s : EngineState) : Except StorageError Unit × EngineState :=
  (.ok (), s)

/-- `StorageEngine::load` (engine.rs lines 45-68): read the FIRST six bytes
of the file, check them against the magic, then decode the header page at
offset 0 and the footer page at the decoded `footer_offset`. -/
def load (disk : List Nat) : Except StorageError EngineState :=
  match readExact disk 0 6 with
  | none => .error .Io
  | some buffer =>
    if NexoraHeader.verify_magic buffer then
      match readExact disk 0 PAGE_SIZE with
      | none => .error .Io
      | some raw_header =>
        let header := NexoraHeader.deserialize raw_header
        match readExact disk header.footer_offset PAGE_SIZE with
        | none => .error .Io
        | some raw_footer =>
          .ok { header := header, footer := NexoraFooter.deserialize raw_footer,
                disk := disk }
    else .error (.Corrupted .InvalidMagicValue)

/-! ## Derived observations used to state the claims -/

/-- Error component of an `Except` result. -/
def exceptError : Except StorageError EngineState → Option StorageError
  | .error e => some e
  | .ok _ => none

/-- Error component of `load`, for decidable statements. -/
def loadError (disk : List Nat) : Option StorageError :=
  exceptError (load disk)

/-- Final engine state of an `insert_offset_item` run (the input state when
the call errors out before any effect, or when fuel runs out). -/
def insertState (s : EngineState) (offset : Nat) (item : OffsetItem)
    (fuel : Nat) : EngineState :=
  match insert_offset_item s offset item fuel with
  | some (_, s1) => s1
  | none => s

/-- Result component of an `insert_offset_item` run. -/
def insertOutcome (s : EngineState) (offset : Nat) (item : OffsetItem)
    (fuel : Nat) : Option (Except StorageError Unit) :=
  (insert_offset_item s offset item fuel).map Prod.fst

/-- Sequential `insert_offset_item` calls with the same start offset, each
with its own `fuel`; stops at the first error or fuel exhaustion. -/
def insertMany (s : EngineState) (offset : Nat) (fuel : Nat) :
    List OffsetItem → Option (Except StorageError Unit × EngineState)
  | [] => some (.ok (), s)
  | item :: rest =>
    match insert_offset_item s offset item fuel with
    | none => none
    | some (.error e, s1) => some (.error e, s1)
    | some (.ok _, s1) => insertMany s1 offset fuel rest

/-- Offsets at which the traversal of `insertLoop` writes chunk pages,
excluding the allocation target (which is the in-memory
`header.footer_offset`). -/
def chainOffsets (disk : List Nat) : Nat → Nat → List Nat
  | 0, _ => []
  | fuel + 1, off =>
    if off = INVALID_OFFSET then []
    else
      match readExact disk off PAGE_SIZE with
      | none => []
      | some raw =>
        let c := OffsetTableChunk.deserialize raw
        if c.nb_items < c.offset_items.length then [off]
        else if c.next_chunk = INVALID_OFFSET then [off]
        else off :: chainOffsets disk fuel c.next_chunk

/-! ## Well-formedness: the ranges imposed by the Rust types -/

/-- The `u64` bounds of the Rust `OffsetItem` fields. -/
def OffsetItemWF (it : OffsetItem) : Prop :=
  it.id < 2 ^ 64 ∧ it.offset < 2 ^ 64

instance : DecidablePred OffsetItemWF := fun it => by
  unfold OffsetItemWF; infer_instance

/-- The field ranges and array lengths imposed by the Rust
`OffsetTableChunk` type. -/
def OffsetTableChunkWF (c : OffsetTableChunk) : Prop :=
  c.nb_items < 2 ^ 8 ∧ c.pad0.length = 7 ∧ c.previous_chunk < 2 ^ 64 ∧
    c.next_chunk < 2 ^ 64 ∧ c.offset_items.length = 254 ∧
    (∀ it ∈ c.offset_items, OffsetItemWF it) ∧ c.reserved.length = 8

instance : DecidablePred OffsetTableChunkWF := fun c => by
  unfold OffsetTableChunkWF; infer_instance

/-! ## Byte-codec lemmas -/

theorem leBytes_length (n v : Nat) : (leBytes n v).length = n := by
  induction n generalizing v with
  | zero => rfl
  | succ n ih => simp [leBytes, ih]

theorem leDecode_leBytes {n v : Nat} (h : v < 256 ^ n) :
    leDecode (leBytes n v) = v := by
  induction n generalizing v with
  | zero =>
    have hv : v = 0 := by simpa using h
    simp [leBytes, leDecode, hv]
  | succ n ih =>
    have hdv : v / 256 < 256 ^ n := by
      rw [Nat.div_lt_iff_lt_mul (by norm_num)]
      calc v < 256 ^ (n + 1) := h
        _ = 256 ^ n * 256 := by ring
    simp [leBytes, leDecode, ih hdv]
    omega

theorem leDecode_eq_sum (l : List Nat) :
    leDecode l = ∑ i in Finset.range l.length, (l.get? i).getD 0 * 256 ^ i := by
  induction l with
  | nil => simp [leDecode]
  | cons b l ih =>
    simp only [leDecode]
    rw [ih, List.length_cons, Finset.sum_range_succ']
    simp only [List.get?_cons_succ, List.get?_cons_zero, Option.getD_some, pow_zero,
      mul_one, pow_succ]
    rw [Finset.mul_sum, add_comm]
    congr 1
    exact Finset.sum_congr rfl fun i _ => by ring

theorem u64leBytes_length (v : Nat) : (u64leBytes v).length = 8 :=
  leBytes_length 8 v

theorem leDecode_u64leBytes {v : Nat} (h : v < 2 ^ 64) :
    leDecode (u64leBytes v) = v :=
  leDecode_leBytes (by norm_num at h ⊢; exact h)

/-! ## Shift and prefix lemmas for the sequential decoders -/

theorem sliceRange_append (pre rest : List Nat) (a b : Nat) :
    sliceRange (pre ++ rest) (pre.length + a) (pre.length + b) =
      sliceRange rest a b := by
  unfold sliceRange
  rw [List.drop_append]
  simp only [List.length_append]
  have hab : (pre.length + a ≤ pre.length + b ∧
      pre.length + b ≤ pre.length + rest.length) ↔ (a ≤ b ∧ b ≤ rest.length) := by
    omega
  rw [if_congr hab rfl rfl]
  have hba : pre.length + b - (pre.length + a) = b - a := by omega
  rw [hba]

theorem read_u64_le_append (pre rest : List Nat) (k : Nat) :
    read_u64_le (pre ++ rest) (pre.length + k) = read_u64_le rest k := by
  unfold read_u64_le
  rw [Nat.add_assoc, sliceRange_append]

theorem read_u64_le_front (x rest : List Nat) (hx : x.length = 8) :
    read_u64_le (x ++ rest) 0 = some (leDecode x) := by
  unfold read_u64_le sliceRange
  have hc : 0 ≤ 8 ∧ 8 ≤ (x ++ rest).length := by
    simp [List.length_append, hx]
  rw [if_pos hc]
  simp [List.take_left' hx]

theorem read_u64_at_length (pre x rest : List Nat) (hx : x.length = 8) :
    read_u64_le (pre ++ (x ++ rest)) pre.length = some (leDecode x) := by
  have h := read_u64_le_append pre (x ++ rest) 0
  rw [Nat.add_zero] at h
  rw [h, read_u64_le_front x rest hx]

theorem readOffsetItems_append (pre rest : List Nat) :
    ∀ (n k : Nat),
      readOffsetItems (pre ++ rest) (pre.length + k) n = readOffsetItems rest k n := by
  intro n
  induction n with
  | zero => intro k; rfl
  | succ n ih =>
    intro k
    unfold readOffsetItems
    rw [Nat.add_assoc pre.length k 8, Nat.add_assoc pre.length k 16]
    rw [read_u64_le_append pre rest k, read_u64_le_append pre rest (k + 8),
      ← Nat.add_assoc pre.length k 16]
    have h16 : pre.length + k + 16 = pre.length + (k + 16) := by omega
    rw [h16, ih (k + 16)]

theorem serializeBytes_length (it : OffsetItem) : it.serializeBytes.length = 16 := by
  simp [OffsetItem.serializeBytes, u64leBytes_length]

theorem flatten_serializeBytes_length (l : List OffsetItem) :
    ((l.map OffsetItem.serializeBytes).flatten).length = 16 * l.length := by
  induction l with
  | nil => simp
  | cons it l ih =>
    simp [List.flatten_cons, serializeBytes_length, ih]
    ring

theorem readOffsetItems_decode (l : List OffsetItem) (rest : List Nat)
    (h : ∀ it ∈ l, OffsetItemWF it) :
    readOffsetItems ((l.map OffsetItem.serializeBytes).flatten ++ rest) 0 l.length
      = l := by
  induction l with
  | nil => rfl
  | cons it l ih =>
    have hit := h it (by simp)
    have hrest : ∀ x ∈ l, OffsetItemWF x := fun x hx => h x (by simp [hx])
    unfold readOffsetItems
    simp only [List.length_cons]
    have hbuf : ((it :: l).map OffsetItem.serializeBytes).flatten ++ rest =
        u64leBytes it.id ++
          (u64leBytes it.offset ++ ((l.map OffsetItem.serializeBytes).flatten ++ rest)) := by
      simp [OffsetItem.serializeBytes, List.append_assoc]
    rw [hbuf]
    have hid : read_u64_le (u64leBytes it.id ++
        (u64leBytes it.offset ++ ((l.map OffsetItem.serializeBytes).flatten ++ rest))) 0 =
        some it.id := by
      rw [read_u64_le_front _ _ (u64leBytes_length it.id), leDecode_u64leBytes hit.1]
    have hoff : read_u64_le (u64leBytes it.id ++
        (u64leBytes it.offset ++ ((l.map OffsetItem.serializeBytes).flatten ++ rest))) 8 =
        some it.offset := by
      have h8 : (8 : Nat) = (u64leBytes it.id).length := (u64leBytes_length it.id).symm
      rw [h8, read_u64_at_length _ _ _ (u64leBytes_length it.offset),
        leDecode_u64leBytes hit.2]
    have h16 : (16 : Nat) = (u64leBytes it.id ++ u64leBytes it.offset).length := by
      simp [u64leBytes_length]
    have htail : readOffsetItems (u64leBytes it.id ++
        (u64leBytes it.offset ++ ((l.map OffsetItem.serializeBytes).flatten ++ rest)))
        16 l.length = l := by
      rw [show u64leBytes it.id ++
          (u64leBytes it.offset ++ ((l.map OffsetItem.serializeBytes).flatten ++ rest)) =
          (u64leBytes it.id ++ u64leBytes it.offset) ++
            ((l.map OffsetItem.serializeBytes).flatten ++ rest) by
        simp [List.append_assoc]]
      rw [h16, show (u64leBytes it.id ++ u64leBytes it.offset).length =
          (u64leBytes it.id ++ u64leBytes it.offset).length + 0 by omega]
      rw [readOffsetItems_append]
      exact ih hrest
    rw [hid, hoff, htail]
    rfl

/-! ## OffsetTableChunk round trip -/

theorem OffsetTableChunk.serialize_length (c : OffsetTableChunk)
    (h : OffsetTableChunkWF c) : c.serialize.length = PAGE_SIZE := by
  obtain ⟨h1, h2, h3, h4, h5, h6, h7⟩ := h
  simp only [OffsetTableChunk.serialize, List.length_cons, List.length_append,
    u64leBytes_length, flatten_serializeBytes_length, h2, h5, h7, PAGE_SIZE]

theorem OffsetTableChunk.deserialize_serialize (c : OffsetTableChunk)
    (h : OffsetTableChunkWF c) :
    OffsetTableChunk.deserialize c.serialize = c := by
  obtain ⟨h1, h2, h3, h4, h5, h6, h7⟩ := h
  obtain ⟨nb, pad, prev, next, items, res⟩ := c
  simp only at h1 h2 h3 h4 h5 h6 h7
  have hser : OffsetTableChunk.serialize ⟨nb, pad, prev, next, items, res⟩ =
      nb :: (pad ++ (u64leBytes prev ++ (u64leBytes next ++
        ((items.map OffsetItem.serializeBytes).flatten ++ res)))) := rfl
  unfold OffsetTableChunk.deserialize
  rw [hser]
  have hnb : read_u8 (nb :: (pad ++ (u64leBytes prev ++ (u64leBytes next ++
      ((items.map OffsetItem.serializeBytes).flatten ++ res))))) 0 = some nb := rfl
  have hpad : ((nb :: (pad ++ (u64leBytes prev ++ (u64leBytes next ++
      ((items.map OffsetItem.serializeBytes).flatten ++ res))))).drop 1).take 7 = pad := by
    simp only [List.drop_succ_cons, List.drop_zero]
    exact List.take_left' h2
  have hprev : read_u64_le (nb :: (pad ++ (u64leBytes prev ++ (u64leBytes next ++
      ((items.map OffsetItem.serializeBytes).flatten ++ res))))) 8 = some prev := by
    have hpre : ((nb :: pad) : List Nat).length = 8 := by simp [h2]
    rw [show (nb :: (pad ++ (u64leBytes prev ++ (u64leBytes next ++
        ((items.map OffsetItem.serializeBytes).flatten ++ res))))) =
        (nb :: pad) ++ (u64leBytes prev ++ (u64leBytes next ++
        ((items.map OffsetItem.serializeBytes).flatten ++ res))) from rfl]
    rw [← hpre, read_u64_at_length _ _ _ (u64leBytes_length prev),
      leDecode_u64leBytes h3]
  have hnext : read_u64_le (nb :: (pad ++ (u64leBytes prev ++ (u64leBytes next ++
      ((items.map OffsetItem.serializeBytes).flatten ++ res))))) 16 = some next := by
    have hpre : (((nb :: pad) ++ u64leBytes prev) : List Nat).length = 16 := by
      simp [h2, u64leBytes_length]
    rw [show (nb :: (pad ++ (u64leBytes prev ++ (u64leBytes next ++
        ((items.map OffsetItem.serializeBytes).flatten ++ res))))) =
        ((nb :: pad) ++ u64leBytes prev) ++ (u64leBytes next ++
        ((items.map OffsetItem.serializeBytes).flatten ++ res)) by
      simp [List.append_assoc]]
    rw [← hpre, read_u64_at_length _ _ _ (u64leBytes_length next),
      leDecode_u64leBytes h4]
  have hitems : readOffsetItems (nb :: (pad ++ (u64leBytes prev ++ (u64leBytes next ++
      ((items.map OffsetItem.serializeBytes).flatten ++ res))))) 24 254 = items := by
    have hpre : (((nb :: pad) ++ (u64leBytes prev ++ u64leBytes next)) : List Nat).length
        = 24 := by simp [h2, u64leBytes_length]
    rw [show (nb :: (pad ++ (u64leBytes prev ++ (u64leBytes next ++
        ((items.map OffsetItem.serializeBytes).flatten ++ res))))) =
        ((nb :: pad) ++ (u64leBytes prev ++ u64leBytes next)) ++
          ((items.map OffsetItem.serializeBytes).flatten ++ res) by
      simp [List.append_assoc]]
    rw [← hpre, show ((nb :: pad) ++ (u64leBytes prev ++ u64leBytes next)).length =
        ((nb :: pad) ++ (u64leBytes prev ++ u64leBytes next)).length + 0 by omega]
    rw [readOffsetItems_append, ← h5]
    exact readOffsetItems_decode items res h6
  have hres : ((nb :: (pad ++ (u64leBytes prev ++ (u64leBytes next ++
      ((items.map OffsetItem.serializeBytes).flatten ++ res))))).drop 4088).take 8
      = res := by
    have hpre : (((nb :: pad) ++ (u64leBytes prev ++ (u64leBytes next ++
        (items.map OffsetItem.serializeBytes).flatten))) : List Nat).length = 4088 := by
      simp only [List.length_cons, List.length_append, u64leBytes_length,
        flatten_serializeBytes_length, h2, h5]
    rw [show (nb :: (pad ++ (u64leBytes prev ++ (u64leBytes next ++
        ((items.map OffsetItem.serializeBytes).flatten ++ res))))) =
        ((nb :: pad) ++ (u64leBytes prev ++ (u64leBytes next ++
          (items.map OffsetItem.serializeBytes).flatten))) ++ res by
      simp [List.append_assoc]]
    rw [List.drop_left' hpre, ← h7, List.take_length]
  rw [hnb, hpad, hprev, hnext, hitems, hres]
  rfl

/-! ## Claim theorems (first batch) -/

/-- C7.  The byte-codec reads are total apart from out-of-range requests:
`read_u64_le`, `read_u16_le`, `read_u8` and `read_bytes` return `none`
exactly when the requested range runs past the end of the buffer, and
otherwise return the little-endian value (resp. the raw bytes) of that
range. -/
theorem byte_codec_totality (buf : List Nat) (off len : Nat) :
    ((read_u64_le buf off = none ↔ buf.length < off + 8) ∧
      (off + 8 ≤ buf.length →
        read_u64_le buf off =
          some (∑ i in Finset.range 8, (buf.get? (off + i)).getD 0 * 256 ^ i))) ∧
    ((read_u16_le buf off = none ↔ buf.length < off + 2) ∧
      (off + 2 ≤ buf.length →
        read_u16_le buf off =
          some (∑ i in Finset.range 2, (buf.get? (off + i)).getD 0 * 256 ^ i))) ∧
    ((read_u8 buf off = none ↔ buf.length ≤ off) ∧
      (∀ h : off < buf.length, read_u8 buf off = some (buf.get ⟨off, h⟩))) ∧
    ((read_bytes buf off len = none ↔ buf.length < off + len) ∧
      (off + len ≤ buf.length →
        read_bytes buf off len = some ((buf.drop off).take len) ∧
          ∀ i < len, ((buf.drop off).take len).get? i = buf.get? (off + i))) := by
  have hslice : ∀ w, (sliceRange buf off (off + w) = none ↔ buf.length < off + w) := by
    intro w
    simp only [sliceRange, Nat.le_add_right, true_and]
    split <;> simp <;> omega
  have hsome : ∀ w, off + w ≤ buf.length →
      sliceRange buf off (off + w) = some ((buf.drop off).take w) := by
    intro w hw
    simp [sliceRange, hw]
  have hget : ∀ w, off + w ≤ buf.length → ∀ i < w,
      ((buf.drop off).take w).get? i = buf.get? (off + i) := by
    intro w hw i hi
    rw [List.get?_take hi, List.get?_drop]
  have hdec : ∀ w, off + w ≤ buf.length →
      leDecode ((buf.drop off).take w) =
        ∑ i in Finset.range w, (buf.get? (off + i)).getD 0 * 256 ^ i := by
    intro w hw
    have hlen : ((buf.drop off).take w).length = w := by
      simp [List.length_take, List.length_drop]; omega
    rw [leDecode_eq_sum, hlen]
    exact Finset.sum_congr rfl fun i hi => by
      rw [hget w hw i (Finset.mem_range.mp hi)]
  refine ⟨⟨?_, ?_⟩, ⟨?_, ?_⟩, ⟨?_, ?_⟩, ⟨?_, ?_⟩⟩
  · simpa [read_u64_le] using hslice 8
  · intro h; simp [read_u64_le, hsome 8 h, hdec 8 h]
  · simpa [read_u16_le] using hslice 2
  · intro h; simp [read_u16_le, hsome 2 h, hdec 2 h]
  · simp [read_u8, List.get?_eq_none]
  · intro h; simp [read_u8, List.get?_eq_get h]
  · simpa [read_bytes] using hslice len
  · intro h; exact ⟨hsome len h, hget len h⟩

/-- Witness for C7 at a concrete buffer: an in-range `u64` read decodes the
range, an out-of-range `u16` read is `none`. -/
theorem byte_codec_totality_witness :
    read_u64_le [1, 0, 0, 0, 0, 0, 0, 2] 0 =
      some (∑ i in Finset.range 8,
        (([1, 0, 0, 0, 0, 0, 0, 2] : List Nat).get? (0 + i)).getD 0 * 256 ^ i) ∧
    read_u16_le [1, 0, 0, 0, 0, 0, 0, 2] 7 = none :=
  ⟨(byte_codec_totality [1, 0, 0, 0, 0, 0, 0, 2] 0 0).1.2 (by decide),
   ((byte_codec_totality [1, 0, 0, 0, 0, 0, 0, 2] 7 0).2.1.1).mpr (by decide)⟩

/-- C4.  `NexoraFile::default()` puts the footer at `9 * 4096` and gives
the eight section entries, in fixed order, `base_chunk_offset =
(1 + i) * 4096` and `nb_total_items = 0`. -/
theorem default_file_layout :
    NexoraFile.default.header.footer_offset = 9 * PAGE_SIZE ∧
    ∀ i, i < 8 → NexoraFile.default.footer.sections.get? i =
      some { nb_total_items := 0, base_chunk_offset := (1 + i) * PAGE_SIZE } := by
  constructor
  · rfl
  · intro i hi
    interval_cases i <;> rfl

/-- Witness for C4 at the last section index (nodes-offset neighbour
`edges`, index 7, page 8). -/
theorem default_file_layout_witness :
    NexoraFile.default.footer.sections.get? 7 =
      some { nb_total_items := 0, base_chunk_offset := (1 + 7) * PAGE_SIZE } :=
  default_file_layout.2 7 (by decide)

/-- C6.  Both `read_offset_table` and `insert_offset_item` reject the
all-ones sentinel offset with the invalid-offset corruption error and hand
the engine state back unchanged; the sentinel test precedes every disk
access in both definitions, so no I/O happens. -/
theorem invalid_offset_rejected (s : EngineState) (item : OffsetItem) (fuel : Nat) :
    read_offset_table s INVALID_OFFSET =
      (.error (.Corrupted .InvalidOffsetValue), s) ∧
    insert_offset_item s INVALID_OFFSET item fuel =
      some (.error (.Corrupted .InvalidOffsetValue), s) := by
  constructor
  · simp [read_offset_table, read_offset_table_result]
  · simp [insert_offset_item]

/-- C8.  A node or edge schema builder below the 120-property cap appends
the descriptor at the end and returns normally; at the cap the operation is
fatal (Rust panic, modelled as `none`). -/
theorem schema_builder_property_cap :
    (∀ (b : NodeSchemaBuilder) (p : PropertyBuilder),
      (b.properties.length < MAX_PROPERTIES_COUNT →
        b.property p = some { b with properties := b.properties ++ [p] }) ∧
      (MAX_PROPERTIES_COUNT ≤ b.properties.length → b.property p = none)) ∧
    (∀ (b : EdgeSchemaBuilder) (p : PropertyBuilder),
      (b.properties.length < MAX_PROPERTIES_COUNT →
        b.property p = some { b with properties := b.properties ++ [p] }) ∧
      (MAX_PROPERTIES_COUNT ≤ b.properties.length → b.property p = none)) := by
  constructor <;> intro b p <;> constructor <;> intro h <;>
    simp [NodeSchemaBuilder.property, EdgeSchemaBuilder.property] <;> omega

/-- Witness for C8: an empty node builder accepts a property; an edge
builder already holding 120 properties is rejected fatally. -/
theorem schema_builder_property_cap_witness :
    NodeSchemaBuilder.property ⟨1, []⟩ ⟨"a", .Int8, false⟩ =
      some ⟨1, [] ++ [⟨"a", .Int8, false⟩]⟩ ∧
    EdgeSchemaBuilder.property ⟨2, List.replicate 120 ⟨"a", .Int8, false⟩⟩
      ⟨"a", .Int8, false⟩ = none :=
  ⟨(schema_builder_property_cap.1 ⟨1, []⟩ ⟨"a", .Int8, false⟩).1 (by decide),
   (schema_builder_property_cap.2 ⟨2, List.replicate 120 ⟨"a", .Int8, false⟩⟩
      ⟨"a", .Int8, false⟩).2 (by simp [MAX_PROPERTIES_COUNT])⟩

/-- Helper for C10: the loop of `insert_offset_item` never touches the
in-memory footer mirror, whatever branch it takes. -/
theorem insertLoop_preserves_footer (item : OffsetItem) :
    ∀ (fuel : Nat) (s : EngineState) (offset : Nat)
      (r : Except StorageError Unit) (s1 : EngineState),
      insertLoop item fuel s offset = some (r, s1) → s1.footer = s.footer := by
  intro fuel
  induction fuel with
  | zero => intro s offset r s1 h; simp [insertLoop] at h
  | succ fuel ih =>
    intro s offset r s1 h
    rw [insertLoop, read_offset_table] at h
    rcases hr : read_offset_table_result s.disk offset with e | chunk <;> rw [hr] at h
    · simp at h; rw [← h.2]
    · simp only at h
      split at h
      · simp at h
        rw [← h.2, log_offset_chunk]
      · split at h
        · simp at h
          rw [← h.2]
          simp [log_offset_chunk, get_new_offset_table_space]
        · exact ih s chunk.next_chunk r s1 h

/-- C10.  `insert_offset_item` never updates the engine's in-memory footer
mirror: after any call (successful or not) the footer — hence each of the
eight `OffsetMetadataTable` entries and every `nb_total_items` — is exactly
the footer before the call. -/
theorem insert_preserves_footer (s : EngineState) (offset : Nat)
    (item : OffsetItem) (fuel : Nat) :
    (insertState s offset item fuel).footer = s.footer ∧
    (insertState s offset item fuel).footer.sections = s.footer.sections := by
  have hmain : (insertState s offset item fuel).footer = s.footer := by
    cases hins : insert_offset_item s offset item fuel with
    | none => simp [insertState, hins]
    | some p =>
      obtain ⟨r, s1⟩ := p
      have h1 : insertState s offset item fuel = s1 := by simp [insertState, hins]
      rw [h1]
      rw [insert_offset_item] at hins
      split at hins
      · simp only [Option.some.injEq, Prod.mk.injEq] at hins
        rw [← hins.2]
      · exact insertLoop_preserves_footer item fuel s offset r s1 hins
  exact ⟨hmain, by rw [hmain]⟩

/-- C5.  For the one record type of the layout that has both a `serialize`
and a `deserialize` (`OffsetTableChunk`), every value within the ranges of
the Rust field types round-trips, and `serialize` produces exactly the
documented 4096 bytes. -/
theorem chunk_serialize_roundtrip (c : OffsetTableChunk)
    (h : OffsetTableChunkWF c) :
    OffsetTableChunk.deserialize c.serialize = c ∧
      c.serialize.length = PAGE_SIZE :=
  ⟨OffsetTableChunk.deserialize_serialize c h, OffsetTableChunk.serialize_length c h⟩

set_option maxRecDepth 4000 in
/-- Witness for C5 at a boundary value: a chunk with `nb_items = 254` and
sentinel neighbour offsets. -/
theorem chunk_serialize_roundtrip_witness :
    OffsetTableChunk.deserialize
        (OffsetTableChunk.serialize { OffsetTableChunk.default with nb_items := 254 }) =
      { OffsetTableChunk.default with nb_items := 254 } ∧
    (OffsetTableChunk.serialize
        { OffsetTableChunk.default with nb_items := 254 }).length = PAGE_SIZE :=
  chunk_serialize_roundtrip { OffsetTableChunk.default with nb_items := 254 } (by decide)

/-! ## Write/read algebra of the byte-list disk -/

theorem writeAll_prefix_length (d : List Nat) (off : Nat) :
    (d.take off ++ List.replicate (off - d.length) 0).length = off := by
  simp only [List.length_append, List.length_take, List.length_replicate]
  omega

theorem writeAll_length (d b : List Nat) (off : Nat) :
    (writeAll d off b).length = max (off + b.length) d.length := by
  unfold writeAll
  simp only [List.length_append, List.length_take, List.length_replicate,
    List.length_drop]
  omega

theorem readExact_writeAll_self (d b : List Nat) (off : Nat) :
    readExact (writeAll d off b) off b.length = some b := by
  have hP := writeAll_prefix_length d off
  unfold readExact writeAll
  rw [if_pos]
  · rw [List.drop_left' hP, List.take_left]
  · simp only [List.length_append, hP]
    omega

/-- Take of a prefix below the written region is unchanged. -/
theorem writeAll_take_of_le (d b : List Nat) (off n : Nat) (hn : n ≤ off)
    (hd : n ≤ d.length) : (writeAll d off b).take n = d.take n := by
  have hP := writeAll_prefix_length d off
  have h1 : n - (d.take off ++ List.replicate (off - d.length) 0).length = 0 := by
    rw [hP]; omega
  have h2 : n - (d.take off).length = 0 := by
    simp only [List.length_take]; omega
  unfold writeAll
  rw [List.take_append_eq_append_take, h1, List.take_zero, List.append_nil,
    List.take_append_eq_append_take, h2, List.take_zero, List.append_nil,
    List.take_take, min_eq_left hn]

/-! ## Symbolic execution lemmas for one `insert_offset_item` step -/

theorem read_offset_table_result_of_page (disk : List Nat) (off : Nat)
    (c : OffsetTableChunk) (hoff : ¬ (off = INVALID_OFFSET))
    (hpage : readExact disk off PAGE_SIZE = some c.serialize)
    (hWF : OffsetTableChunkWF c) :
    read_offset_table_result disk off = .ok c := by
  unfold read_offset_table_result
  rw [if_neg hoff, hpage]
  show Except.ok (OffsetTableChunk.deserialize c.serialize) = _
  rw [OffsetTableChunk.deserialize_serialize c hWF]

/-- The non-full branch: the item lands in slot `nb_items`, the count goes
up by one, and the single effect is rewriting that chunk page in place. -/
theorem insertLoop_step_nonfull (fuel : Nat) (s : EngineState) (off : Nat)
    (item : OffsetItem) (c : OffsetTableChunk) (hoff : ¬ (off = INVALID_OFFSET))
    (hpage : readExact s.disk off PAGE_SIZE = some c.serialize)
    (hWF : OffsetTableChunkWF c) (hlt : c.nb_items < c.offset_items.length) :
    insertLoop item (fuel + 1) s off =
      some (.ok (),
        { s with
          disk := writeAll s.disk off
              (OffsetTableChunk.serialize
                { c with
                  offset_items := c.offset_items.set c.nb_items item,
                  nb_items := c.nb_items + 1 }) }) := by
  unfold insertLoop
  rw [read_offset_table, read_offset_table_result_of_page s.disk off c hoff hpage hWF]
  dsimp only
  rw [if_pos hlt]
  rfl

/-- The allocation branch: a full chunk with no successor is linked to a
fresh page taken at the in-memory footer offset, which advances by one
page; the old chunk and the fresh chunk are written, nothing else. -/
theorem insertLoop_step_alloc (fuel : Nat) (s : EngineState) (off : Nat)
    (item : OffsetItem) (c : OffsetTableChunk) (hoff : ¬ (off = INVALID_OFFSET))
    (hpage : readExact s.disk off PAGE_SIZE = some c.serialize)
    (hWF : OffsetTableChunkWF c)
    (hfull : ¬ (c.nb_items < c.offset_items.length))
    (hnext : c.next_chunk = INVALID_OFFSET) :
    insertLoop item (fuel + 1) s off =
      some (.ok (),
        { header := { s.header with footer_offset := s.header.footer_offset + PAGE_SIZE }
          footer := s.footer
          disk := writeAll
            (writeAll s.disk off
              (OffsetTableChunk.serialize { c with next_chunk := s.header.footer_offset }))
            s.header.footer_offset
            (OffsetTableChunk.serialize
              { OffsetTableChunk.default with
                previous_chunk := off
                offset_items := OffsetTableChunk.default.offset_items.set 0 item
                nb_items := 1 }) }) := by
  unfold insertLoop
  rw [read_offset_table, read_offset_table_result_of_page s.disk off c hoff hpage hWF]
  dsimp only
  rw [if_neg hfull, if_pos hnext]
  rfl

/-- The traversal branch: a full chunk with a successor defers to the
successor, consuming one unit of fuel and changing nothing. -/
theorem insertLoop_step_traverse (fuel : Nat) (s : EngineState) (off : Nat)
    (item : OffsetItem) (c : OffsetTableChunk) (hoff : ¬ (off = INVALID_OFFSET))
    (hpage : readExact s.disk off PAGE_SIZE = some c.serialize)
    (hWF : OffsetTableChunkWF c)
    (hfull : ¬ (c.nb_items < c.offset_items.length))
    (hnext : ¬ (c.next_chunk = INVALID_OFFSET)) :
    insertLoop item (fuel + 1) s off = insertLoop item fuel s c.next_chunk := by
  conv_lhs => unfold insertLoop
  rw [read_offset_table, read_offset_table_result_of_page s.disk off c hoff hpage hWF]
  dsimp only
  rw [if_neg hfull, if_neg hnext]

/-- Concrete scenario for the footer-persistence claim: an item to insert. -/
def probeItem : OffsetItem := { id := 5, offset := 6 }

/-- A full chunk (`nb_items = 254`) with no next chunk. -/
def fullChunk : OffsetTableChunk := { OffsetTableChunk.default with nb_items := 254 }

/-- The full chunk after `insert_offset_item` links it to the page allocated
at the old footer offset `PAGE_SIZE`. -/
def linkedChunk : OffsetTableChunk := { fullChunk with next_chunk := PAGE_SIZE }

/-- The freshly allocated chunk holding `probeItem` in slot 0. -/
def freshChunk : OffsetTableChunk :=
  { OffsetTableChunk.default with
    previous_chunk := 0
    offset_items := OffsetTableChunk.default.offset_items.set 0 probeItem
    nb_items := 1 }

/-- Engine state whose file is exactly one full chunk at offset 0, with the
in-memory allocation frontier (`header.footer_offset`) right behind it. -/
def fullState : EngineState :=
  { header := { NexoraHeader.default with footer_offset := PAGE_SIZE }
    footer := NexoraFooter.default
    disk := fullChunk.serialize }

theorem fullChunkWF : OffsetTableChunkWF fullChunk := by decide

theorem linkedChunkWF : OffsetTableChunkWF linkedChunk := by decide

theorem freshChunkWF : OffsetTableChunkWF freshChunk := by decide

/-- Running the allocating insert on `fullState`: the two chunk pages are
written and the in-memory frontier advances, but (the un-awaited
`log_footer_chunk` never running) nothing else is written. -/
theorem insert_run_on_fullState :
    insert_offset_item fullState 0 probeItem 1 =
      some (.ok (),
        { header := { NexoraHeader.default with footer_offset := PAGE_SIZE + PAGE_SIZE }
          footer := NexoraFooter.default
          disk := writeAll (writeAll fullChunk.serialize 0 linkedChunk.serialize)
            PAGE_SIZE freshChunk.serialize }) := by
  have hlen : fullChunk.serialize.length = PAGE_SIZE :=
    OffsetTableChunk.serialize_length fullChunk fullChunkWF
  have hex : readExact fullState.disk 0 PAGE_SIZE = some fullChunk.serialize := by
    have hdisk : fullState.disk = fullChunk.serialize := rfl
    unfold readExact
    rw [hdisk, hlen]
    rw [if_pos (show 0 + PAGE_SIZE ≤ PAGE_SIZE by omega)]
    rw [List.drop_zero, ← hlen, List.take_length]
  unfold insert_offset_item
  rw [if_neg (show ¬ (0 = INVALID_OFFSET) by decide)]
  show insertLoop probeItem (0 + 1) fullState 0 = _
  rw [insertLoop_step_alloc 0 fullState 0 probeItem fullChunk
    (show ¬ (0 = INVALID_OFFSET) by decide) hex fullChunkWF
    (show ¬ (fullChunk.nb_items < fullChunk.offset_items.length) by decide)
    (show fullChunk.next_chunk = INVALID_OFFSET by decide)]
  rfl

/-- C2 evidence.  The allocating insert on `fullState` succeeds and advances
the in-memory footer offset to `2 * PAGE_SIZE`, yet afterwards the file ends
at byte `2 * PAGE_SIZE`: no footer page exists on disk at the footer offset
at all, so the on-disk footer page cannot equal the in-memory mirror.  The
cause is `engine.rs` line 91, `self.log_footer_chunk();` without `.await`,
which drops the future unpolled (additionally, `NexoraFooter::serialize`,
which that future would call, is not defined anywhere under src). -/
theorem footer_write_never_executes :
    insertOutcome fullState 0 probeItem 1 = some (.ok ()) ∧
    (insertState fullState 0 probeItem 1).header.footer_offset = 2 * PAGE_SIZE ∧
    (insertState fullState 0 probeItem 1).disk.length = 2 * PAGE_SIZE ∧
    readExact (insertState fullState 0 probeItem 1).disk
      ((insertState fullState 0 probeItem 1).header.footer_offset) PAGE_SIZE
      = none := by
  have hstate : insertState fullState 0 probeItem 1 =
      { header := { NexoraHeader.default with footer_offset := PAGE_SIZE + PAGE_SIZE }
        footer := NexoraFooter.default
        disk := writeAll (writeAll fullChunk.serialize 0 linkedChunk.serialize)
          PAGE_SIZE freshChunk.serialize } := by
    unfold insertState
    rw [insert_run_on_fullState]
  have hlen : fullChunk.serialize.length = PAGE_SIZE :=
    OffsetTableChunk.serialize_length fullChunk fullChunkWF
  have hlen1 : linkedChunk.serialize.length = PAGE_SIZE :=
    OffsetTableChunk.serialize_length linkedChunk linkedChunkWF
  have hlen2 : freshChunk.serialize.length = PAGE_SIZE :=
    OffsetTableChunk.serialize_length freshChunk freshChunkWF
  have hd1 : (writeAll fullChunk.serialize 0 linkedChunk.serialize).length
      = PAGE_SIZE := by
    rw [writeAll_length, hlen, hlen1]
    omega
  have hd2 : (writeAll (writeAll fullChunk.serialize 0 linkedChunk.serialize)
      PAGE_SIZE freshChunk.serialize).length = 2 * PAGE_SIZE := by
    rw [writeAll_length, hd1, hlen2]
    omega
  refine ⟨?_, ?_, ?_, ?_⟩
  · unfold insertOutcome
    rw [insert_run_on_fullState]
    rfl
  · rw [hstate]
    show PAGE_SIZE + PAGE_SIZE = 2 * PAGE_SIZE
    omega
  · rw [hstate]
    exact hd2
  · rw [hstate]
    dsimp only
    unfold readExact
    have hc : ¬ (PAGE_SIZE + PAGE_SIZE + PAGE_SIZE ≤
        (writeAll (writeAll fullChunk.serialize 0 linkedChunk.serialize)
          PAGE_SIZE freshChunk.serialize).length) := by
      rw [hd2]; decide
    rw [if_neg hc]

theorem readExact_writeAll_left (d b : List Nat) (off off2 len2 : Nat)
    (h2 : off2 + len2 ≤ off) (hd : off2 + len2 ≤ d.length) :
    readExact (writeAll d off b) off2 len2 = readExact d off2 len2 := by
  have key := writeAll_take_of_le d b off (off2 + len2) h2 hd
  unfold readExact
  rw [if_pos (by rw [writeAll_length]; omega), if_pos hd]
  congr 1
  calc ((writeAll d off b).drop off2).take len2
      = ((writeAll d off b).drop off2).take (off2 + len2 - off2) := by
        rw [Nat.add_sub_cancel_left]
    _ = ((writeAll d off b).take (off2 + len2)).drop off2 := (List.drop_take _ _ _).symm
    _ = (d.take (off2 + len2)).drop off2 := by rw [key]
    _ = (d.drop off2).take (off2 + len2 - off2) := List.drop_take _ _ _
    _ = (d.drop off2).take len2 := by rw [Nat.add_sub_cancel_left]

/-! ## Chunk growth: inserting until a single chunk overflows (C3) -/

theorem defaultChunkWF : OffsetTableChunkWF OffsetTableChunk.default := by decide

theorem ne_invalid_of_room {start fo : Nat} (h1 : start + PAGE_SIZE ≤ fo)
    (h2 : fo < 2 ^ 64) : ¬ (start = INVALID_OFFSET) := by
  have hINV : INVALID_OFFSET = 2 ^ 64 - 1 := rfl
  have hP : PAGE_SIZE = 4096 := rfl
  omega

theorem insert_offset_item_eq (s : EngineState) (start : Nat) (item : OffsetItem)
    (fuel : Nat) (hstart : ¬ (start = INVALID_OFFSET)) :
    insert_offset_item s start item fuel = insertLoop item fuel s start := by
  unfold insert_offset_item
  rw [if_neg hstart]

theorem readExact_bound {d : List Nat} {off len : Nat} {b : List Nat}
    (h : readExact d off len = some b) : off + len ≤ d.length := by
  unfold readExact at h
  by_cases hc : off + len ≤ d.length
  · exact hc
  · rw [if_neg hc] at h
    cases h

theorem readExact_writeAll_self_len (d b : List Nat) (off n : Nat)
    (hb : b.length = n) : readExact (writeAll d off b) off n = some b := by
  rw [← hb]
  exact readExact_writeAll_self d b off

theorem OffsetTableChunkWF_setNext (c : OffsetTableChunk) (h : OffsetTableChunkWF c)
    (v : Nat) (hv : v < 2 ^ 64) : OffsetTableChunkWF { c with next_chunk := v } := by
  obtain ⟨h1, h2, h3, h4, h5, h6, h7⟩ := h
  exact ⟨h1, h2, h3, hv, h5, h6, h7⟩

theorem OffsetTableChunkWF_insertSlot (c : OffsetTableChunk) (h : OffsetTableChunkWF c)
    (item : OffsetItem) (hit : OffsetItemWF item) (k : Nat)
    (hnb : c.nb_items + 1 < 2 ^ 8) :
    OffsetTableChunkWF
      { c with
        offset_items := c.offset_items.set k item,
        nb_items := c.nb_items + 1 } := by
  obtain ⟨h1, h2, h3, h4, h5, h6, h7⟩ := h
  refine ⟨hnb, h2, h3, h4, by simpa using h5, ?_, h7⟩
  intro x hx
  rcases List.mem_or_eq_of_mem_set hx with hmem | heq
  · exact h6 x hmem
  · rw [heq]
    exact hit

theorem OffsetTableChunkWF_fresh (off : Nat) (hoff : off < 2 ^ 64)
    (item : OffsetItem) (hit : OffsetItemWF item) :
    OffsetTableChunkWF
      { OffsetTableChunk.default with
        previous_chunk := off
        offset_items := OffsetTableChunk.default.offset_items.set 0 item
        nb_items := 1 } := by
  obtain ⟨h1, h2, h3, h4, h5, h6, h7⟩ := defaultChunkWF
  refine ⟨by norm_num, h2, hoff, h4, by simpa using h5, ?_, h7⟩
  intro x hx
  rcases List.mem_or_eq_of_mem_set hx with hmem | heq
  · exact h6 x hmem
  · rw [heq]
    exact hit

theorem set_zero_get_first {α : Type} (l : List α) (item : α) (h : 0 < l.length) :
    (l.set 0 item).get? 0 = some item := by
  rw [List.get?_set_eq]
  simp [h]

/-- Filling the tail of a single-chunk offset-table list: inserting the
items of `rest` one at a time (last item `itLast`) into a list whose only
chunk currently holds `c.nb_items` items with `c.nb_items + rest.length =
255` ends with that chunk holding 254 items and linked to a page freshly
allocated at the old allocation frontier, which holds exactly `itLast`. -/
theorem insertMany_fill (rest : List OffsetItem) :
    ∀ (s : EngineState) (c : OffsetTableChunk) (start : Nat) (itLast : OffsetItem),
      OffsetTableChunkWF c →
      c.next_chunk = INVALID_OFFSET →
      c.nb_items + rest.length = 255 →
      readExact s.disk start PAGE_SIZE = some c.serialize →
      start + PAGE_SIZE ≤ s.header.footer_offset →
      s.header.footer_offset < 2 ^ 64 →
      (∀ it ∈ rest, OffsetItemWF it) →
      rest.getLast? = some itLast →
      ∃ s1 b1 b2,
        insertMany s start 1 rest = some (.ok (), s1) ∧
        s1.header.footer_offset = s.header.footer_offset + PAGE_SIZE ∧
        s1.footer = s.footer ∧
        readExact s1.disk start PAGE_SIZE = some b1 ∧
        (OffsetTableChunk.deserialize b1).nb_items = 254 ∧
        (OffsetTableChunk.deserialize b1).next_chunk = s.header.footer_offset ∧
        readExact s1.disk s.header.footer_offset PAGE_SIZE = some b2 ∧
        (OffsetTableChunk.deserialize b2).nb_items = 1 ∧
        (OffsetTableChunk.deserialize b2).offset_items.get? 0 = some itLast ∧
        (OffsetTableChunk.deserialize b2).previous_chunk = start ∧
        (OffsetTableChunk.deserialize b2).next_chunk = INVALID_OFFSET := by
  induction rest with
  | nil =>
    intro s c start itLast hWF hnext hcount hpage hsize hfo hWFr hlast
    simp at hlast
  | cons it rest ih =>
    intro s c start itLast hWF hnext hcount hpage hsize hfo hWFr hlast
    have hstart : ¬ (start = INVALID_OFFSET) := ne_invalid_of_room hsize hfo
    have hdlen : start + PAGE_SIZE ≤ s.disk.length := readExact_bound hpage
    have hitWF : OffsetItemWF it := hWFr it (by simp)
    have h254 : c.offset_items.length = 254 := hWF.2.2.2.2.1
    cases rest with
    | nil =>
      have hnb : c.nb_items = 254 := by
        simp only [List.length_cons, List.length_nil] at hcount
        omega
      have hfull : ¬ (c.nb_items < c.offset_items.length) := by
        rw [hnb, h254]
        omega
      have hitLast : itLast = it := by
        simp at hlast
        exact hlast.symm
      have hrun := insertLoop_step_alloc 0 s start it c hstart hpage hWF hfull hnext
      have hins := (insert_offset_item_eq s start it 1 hstart).trans hrun
      have hWFlinked : OffsetTableChunkWF { c with next_chunk := s.header.footer_offset } :=
        OffsetTableChunkWF_setNext c hWF s.header.footer_offset hfo
      have hstart64 : start < 2 ^ 64 := by
        have hP : PAGE_SIZE = 4096 := rfl
        omega
      have hWFfresh : OffsetTableChunkWF
          { OffsetTableChunk.default with
            previous_chunk := start
            offset_items := OffsetTableChunk.default.offset_items.set 0 it
            nb_items := 1 } :=
        OffsetTableChunkWF_fresh start hstart64 it hitWF
      have hlenLinked := OffsetTableChunk.serialize_length _ hWFlinked
      have hlenFresh := OffsetTableChunk.serialize_length _ hWFfresh
      refine ⟨{ header := { s.header with
                  footer_offset := s.header.footer_offset + PAGE_SIZE },
                footer := s.footer,
                disk := writeAll
                  (writeAll s.disk start
                    (OffsetTableChunk.serialize
                      { c with next_chunk := s.header.footer_offset }))
                  s.header.footer_offset
                  (OffsetTableChunk.serialize
                    { OffsetTableChunk.default with
                      previous_chunk := start,
                      offset_items := OffsetTableChunk.default.offset_items.set 0 it,
                      nb_items := 1 }) },
        (OffsetTableChunk.serialize { c with next_chunk := s.header.footer_offset }),
        (OffsetTableChunk.serialize
          { OffsetTableChunk.default with
            previous_chunk := start
            offset_items := OffsetTableChunk.default.offset_items.set 0 it
            nb_items := 1 }),
        ?_, rfl, rfl, ?_, ?_, ?_, ?_, ?_, ?_, ?_, ?_⟩
      · conv_lhs => unfold insertMany
        rw [hins]
        rfl
      · rw [readExact_writeAll_left _ _ _ _ _ hsize
          (by rw [writeAll_length, hlenLinked]; omega)]
        exact readExact_writeAll_self_len s.disk _ start PAGE_SIZE hlenLinked
      · rw [OffsetTableChunk.deserialize_serialize _ hWFlinked]
        exact hnb
      · rw [OffsetTableChunk.deserialize_serialize _ hWFlinked]
      · exact readExact_writeAll_self_len _ _ _ PAGE_SIZE hlenFresh
      · rw [OffsetTableChunk.deserialize_serialize _ hWFfresh]
      · rw [OffsetTableChunk.deserialize_serialize _ hWFfresh, hitLast]
        exact set_zero_get_first _ it (by rw [defaultChunkWF.2.2.2.2.1]; omega)
      · rw [OffsetTableChunk.deserialize_serialize _ hWFfresh]
      · rw [OffsetTableChunk.deserialize_serialize _ hWFfresh]
        rfl
    | cons b l =>
      have hlt : c.nb_items < c.offset_items.length := by
        simp only [List.length_cons] at hcount
        omega
      have hrun := insertLoop_step_nonfull 0 s start it c hstart hpage hWF hlt
      have hins := (insert_offset_item_eq s start it 1 hstart).trans hrun
      have hWFc1 : OffsetTableChunkWF
          { c with
            offset_items := c.offset_items.set c.nb_items it,
            nb_items := c.nb_items + 1 } :=
        OffsetTableChunkWF_insertSlot c hWF it hitWF c.nb_items
          (by have := hWF.1; omega)
      have hpage1 : readExact
          (writeAll s.disk start (OffsetTableChunk.serialize
            { c with
              offset_items := c.offset_items.set c.nb_items it,
              nb_items := c.nb_items + 1 })) start PAGE_SIZE =
          some (OffsetTableChunk.serialize
            { c with
              offset_items := c.offset_items.set c.nb_items it,
              nb_items := c.nb_items + 1 }) :=
        readExact_writeAll_self_len _ _ _ _ (OffsetTableChunk.serialize_length _ hWFc1)
      have hlast2 : (b :: l).getLast? = some itLast := by
        rw [← List.getLast?_cons_cons]
        exact hlast
      obtain ⟨s2, b1, b2, hmany, hfo2, hfoot, hr1, hnb1, hnx1, hr2, hnb2, hslot,
        hprev2, hnx2⟩ :=
        ih { s with disk := writeAll s.disk start (OffsetTableChunk.serialize
              { c with
                offset_items := c.offset_items.set c.nb_items it,
                nb_items := c.nb_items + 1 }) }
          { c with
            offset_items := c.offset_items.set c.nb_items it,
            nb_items := c.nb_items + 1 }
          start itLast hWFc1 hnext
          (by simp only [List.length_cons] at hcount ⊢; omega)
          hpage1 hsize hfo
          (fun x hx => hWFr x (by simp [hx]))
          hlast2
      refine ⟨s2, b1, b2, ?_, hfo2, hfoot, hr1, hnb1, hnx1, hr2, hnb2, hslot,
        hprev2, hnx2⟩
      conv_lhs => unfold insertMany
      rw [hins]
      exact hmany

theorem readExact_self_page (b : List Nat) (hb : b.length = PAGE_SIZE) :
    readExact b 0 PAGE_SIZE = some b := by
  unfold readExact
  rw [hb, if_pos (by omega), List.drop_zero, ← hb, List.take_length]

/-- C3.  From a state whose offset-table list at `start` is a single empty
chunk (with the allocation frontier at or past the next page boundary),
255 `insert_offset_item` calls with the same `start` leave the first chunk
with `nb_items = 254` and `next_chunk` equal to the pre-call allocation
high-water mark (the old `header.footer_offset`), and the newly allocated
second chunk with `nb_items = 1`, the 255th item in slot 0,
`previous_chunk = start` and `next_chunk` the all-ones sentinel; the
in-memory allocation pointer advances by exactly one page. -/
theorem chunk_growth_sequencing (s : EngineState) (start : Nat)
    (items : List OffsetItem) (itLast : OffsetItem)
    (hpage : readExact s.disk start PAGE_SIZE =
      some OffsetTableChunk.default.serialize)
    (hsize : start + PAGE_SIZE ≤ s.header.footer_offset)
    (hfo : s.header.footer_offset < 2 ^ 64)
    (hlen : items.length = 255)
    (hWFitems : ∀ it ∈ items, OffsetItemWF it)
    (hlast : items.getLast? = some itLast) :
    ∃ s1 b1 b2,
      insertMany s start 1 items = some (.ok (), s1) ∧
      s1.header.footer_offset = s.header.footer_offset + PAGE_SIZE ∧
      s1.footer = s.footer ∧
      readExact s1.disk start PAGE_SIZE = some b1 ∧
      (OffsetTableChunk.deserialize b1).nb_items = 254 ∧
      (OffsetTableChunk.deserialize b1).next_chunk = s.header.footer_offset ∧
      readExact s1.disk s.header.footer_offset PAGE_SIZE = some b2 ∧
      (OffsetTableChunk.deserialize b2).nb_items = 1 ∧
      (OffsetTableChunk.deserialize b2).offset_items.get? 0 = some itLast ∧
      (OffsetTableChunk.deserialize b2).previous_chunk = start ∧
      (OffsetTableChunk.deserialize b2).next_chunk = INVALID_OFFSET :=
  insertMany_fill items s OffsetTableChunk.default start itLast defaultChunkWF
    rfl (by rw [hlen]; rfl) hpage hsize hfo hWFitems hlast

/-- Witness for C3: a concrete state whose file is exactly one empty chunk
page at offset 0 with the frontier at `PAGE_SIZE`, and 255 copies of the
item `(1, 2)`. -/
theorem chunk_growth_sequencing_witness :
    ∃ s1 b1 b2,
      insertMany
          { header := { NexoraHeader.default with footer_offset := PAGE_SIZE },
            footer := NexoraFooter.default,
            disk := OffsetTableChunk.default.serialize }
          0 1 (List.replicate 255 { id := 1, offset := 2 }) =
        some (.ok (), s1) ∧
      s1.header.footer_offset = PAGE_SIZE + PAGE_SIZE ∧
      s1.footer = NexoraFooter.default ∧
      readExact s1.disk 0 PAGE_SIZE = some b1 ∧
      (OffsetTableChunk.deserialize b1).nb_items = 254 ∧
      (OffsetTableChunk.deserialize b1).next_chunk = PAGE_SIZE ∧
      readExact s1.disk PAGE_SIZE PAGE_SIZE = some b2 ∧
      (OffsetTableChunk.deserialize b2).nb_items = 1 ∧
      (OffsetTableChunk.deserialize b2).offset_items.get? 0 =
        some { id := 1, offset := 2 } ∧
      (OffsetTableChunk.deserialize b2).previous_chunk = 0 ∧
      (OffsetTableChunk.deserialize b2).next_chunk = INVALID_OFFSET :=
  chunk_growth_sequencing
    { header := { NexoraHeader.default with footer_offset := PAGE_SIZE },
      footer := NexoraFooter.default,
      disk := OffsetTableChunk.default.serialize }
    0 (List.replicate 255 { id := 1, offset := 2 }) { id := 1, offset := 2 }
    (readExact_self_page _ (OffsetTableChunk.serialize_length _ defaultChunkWF))
    (by show 0 + PAGE_SIZE ≤ PAGE_SIZE; omega)
    (by show PAGE_SIZE < 2 ^ 64; decide)
    (by simp)
    (by intro it hit; rw [List.eq_of_mem_replicate hit]; decide)
    (by decide)

/-! ## Frame property: the header page on disk is never rewritten (C9) -/

theorem readOffsetItems_length (buf : List Nat) (offset : Nat) :
    ∀ n, (readOffsetItems buf offset n).length = n := by
  intro n
  induction n generalizing offset with
  | zero => rfl
  | succ n ih => simp [readOffsetItems, ih]

/-- The first visited offset is in the chain whenever the first read
succeeds. -/
theorem chainOffsets_head (disk : List Nat) (fuel : Nat) (off : Nat)
    (raw : List Nat) (hoff : ¬ (off = INVALID_OFFSET))
    (hread : readExact disk off PAGE_SIZE = some raw) :
    off ∈ chainOffsets disk (fuel + 1) off := by
  unfold chainOffsets
  rw [if_neg hoff, hread]
  dsimp only
  split
  · simp
  · split <;> simp

/-- In the traversal branch the chain is the current offset followed by the
chain of the successor. -/
theorem chainOffsets_tail (disk : List Nat) (fuel : Nat) (off : Nat)
    (raw : List Nat) (hoff : ¬ (off = INVALID_OFFSET))
    (hread : readExact disk off PAGE_SIZE = some raw)
    (hfull : ¬ ((OffsetTableChunk.deserialize raw).nb_items <
      (OffsetTableChunk.deserialize raw).offset_items.length))
    (hnext : ¬ ((OffsetTableChunk.deserialize raw).next_chunk = INVALID_OFFSET)) :
    chainOffsets disk (fuel + 1) off =
      off :: chainOffsets disk fuel (OffsetTableChunk.deserialize raw).next_chunk := by
  conv_lhs => unfold chainOffsets
  rw [if_neg hoff, hread]
  dsimp only
  rw [if_neg hfull, if_neg hnext]

/-- The loop of `insert_offset_item` writes only at visited chunk offsets
and at the allocation frontier: when all of those lie at or beyond
`PAGE_SIZE`, the first page of the file is untouched, and no header field
other than the in-memory `footer_offset` changes. -/
theorem insertLoop_frame (item : OffsetItem) :
    ∀ (fuel : Nat) (s : EngineState) (start : Nat) (r : Except StorageError Unit)
      (s1 : EngineState),
      insertLoop item fuel s start = some (r, s1) →
      (∀ o ∈ chainOffsets s.disk fuel start, PAGE_SIZE ≤ o) →
      PAGE_SIZE ≤ s.header.footer_offset →
      PAGE_SIZE ≤ s.disk.length →
      s1.disk.take PAGE_SIZE = s.disk.take PAGE_SIZE ∧
      s1.header = { s.header with footer_offset := s1.header.footer_offset } := by
  intro fuel
  induction fuel with
  | zero =>
    intro s start r s1 h hchain hfo hdisk
    simp [insertLoop] at h
  | succ fuel ih =>
    intro s start r s1 h hchain hfo hdisk
    rw [insertLoop, read_offset_table] at h
    by_cases hoff : start = INVALID_OFFSET
    · have hres : read_offset_table_result s.disk start =
          .error (.Corrupted .InvalidOffsetValue) := by
        unfold read_offset_table_result
        rw [if_pos hoff]
      rw [hres] at h
      simp only [Option.some.injEq, Prod.mk.injEq] at h
      rw [← h.2]
      exact ⟨rfl, rfl⟩
    · rcases hread : readExact s.disk start PAGE_SIZE with _ | raw
      · have hres : read_offset_table_result s.disk start = .error .Io := by
          unfold read_offset_table_result
          rw [if_neg hoff, hread]
        rw [hres] at h
        simp only [Option.some.injEq, Prod.mk.injEq] at h
        rw [← h.2]
        exact ⟨rfl, rfl⟩
      · have hres : read_offset_table_result s.disk start =
            .ok (OffsetTableChunk.deserialize raw) := by
          unfold read_offset_table_result
          rw [if_neg hoff, hread]
        rw [hres] at h
        dsimp only at h
        have hstart4096 : PAGE_SIZE ≤ start :=
          hchain start (chainOffsets_head s.disk fuel start raw hoff hread)
        split at h
        · simp only [Option.some.injEq, Prod.mk.injEq] at h
          rw [← h.2]
          refine ⟨?_, rfl⟩
          exact writeAll_take_of_le s.disk _ start PAGE_SIZE hstart4096 hdisk
        · split at h
          · simp only [Option.some.injEq, Prod.mk.injEq] at h
            rw [← h.2]
            refine ⟨?_, rfl⟩
            dsimp only [log_offset_chunk, get_new_offset_table_space]
            rw [writeAll_take_of_le _ _ _ _ hfo
              (by rw [writeAll_length]; omega)]
            exact writeAll_take_of_le s.disk _ start PAGE_SIZE hstart4096 hdisk
          · rename (¬ ((OffsetTableChunk.deserialize raw).nb_items <
              (OffsetTableChunk.deserialize raw).offset_items.length)) => hfull
            rename (¬ ((OffsetTableChunk.deserialize raw).next_chunk =
              INVALID_OFFSET)) => hnext2
            have hchainT :=
              chainOffsets_tail s.disk fuel start raw hoff hread hfull hnext2
            exact ih s (OffsetTableChunk.deserialize raw).next_chunk r s1 h
              (fun o ho => hchain o (by rw [hchainT]; simp [ho]))
              hfo hdisk

/-- C9.  No storage-engine operation rewrites the header page on disk:
`read_offset_table` and `close` return the state unchanged, and after an
`insert_offset_item` whose traversed chunk offsets and allocation frontier
all lie at or past the first page boundary (the situation of every real
file, whose chunks live behind the header page), the first `PAGE_SIZE`
bytes of the file are exactly what they were, while of the in-memory header
only `footer_offset` may have changed. -/
theorem header_page_never_rewritten (fuel : Nat) (s : EngineState)
    (start : Nat) (item : OffsetItem)
    (hchain : ∀ o ∈ chainOffsets s.disk fuel start, PAGE_SIZE ≤ o)
    (hfo : PAGE_SIZE ≤ s.header.footer_offset)
    (hdisk : PAGE_SIZE ≤ s.disk.length) :
    (insertState s start item fuel).disk.take PAGE_SIZE = s.disk.take PAGE_SIZE ∧
    (insertState s start item fuel).header =
      { s.header with
        footer_offset := (insertState s start item fuel).header.footer_offset } ∧
    (∀ off : Nat, read_offset_table s off = (read_offset_table_result s.disk off, s)) ∧
    close s = (.ok (), s) := by
  have hmain : (insertState s start item fuel).disk.take PAGE_SIZE =
      s.disk.take PAGE_SIZE ∧
      (insertState s start item fuel).header =
        { s.header with
          footer_offset := (insertState s start item fuel).header.footer_offset } := by
    cases hins : insert_offset_item s start item fuel with
    | none =>
      have h1 : insertState s start item fuel = s := by
        simp [insertState, hins]
      rw [h1]
      exact ⟨rfl, rfl⟩
    | some p =>
      obtain ⟨r, s1⟩ := p
      have h1 : insertState s start item fuel = s1 := by
        simp [insertState, hins]
      rw [h1]
      rw [insert_offset_item] at hins
      split at hins
      · simp only [Option.some.injEq, Prod.mk.injEq] at hins
        rw [← hins.2]
        exact ⟨rfl, rfl⟩
      · exact insertLoop_frame item fuel s start r s1 hins hchain hfo hdisk
  exact ⟨hmain.1, hmain.2, fun off => rfl, rfl⟩

/-- Witness for C9: one insert into an all-zero chunk page at offset
`PAGE_SIZE` of a two-page zero file whose frontier is at `2 * PAGE_SIZE`. -/
theorem header_page_never_rewritten_witness :
    (insertState
        { header := { NexoraHeader.default with footer_offset := 2 * PAGE_SIZE },
          footer := NexoraFooter.default,
          disk := List.replicate (2 * PAGE_SIZE) 0 }
        PAGE_SIZE { id := 1, offset := 2 } 1).disk.take PAGE_SIZE =
      (List.replicate (2 * PAGE_SIZE) 0).take PAGE_SIZE := by
  have hre : readExact (List.replicate (2 * PAGE_SIZE) 0) PAGE_SIZE PAGE_SIZE =
      some (List.replicate PAGE_SIZE 0) := by
    unfold readExact
    rw [List.length_replicate, if_pos (by omega), List.drop_replicate,
      List.take_replicate]
    have hmin : min PAGE_SIZE (2 * PAGE_SIZE - PAGE_SIZE) = PAGE_SIZE := by omega
    rw [hmin]
  have hnb : (OffsetTableChunk.deserialize (List.replicate PAGE_SIZE 0)).nb_items
      = 0 := rfl
  have hlen254 :
      (OffsetTableChunk.deserialize (List.replicate PAGE_SIZE 0)).offset_items.length
      = 254 := readOffsetItems_length _ 24 254
  have hchain : chainOffsets (List.replicate (2 * PAGE_SIZE) 0) 1 PAGE_SIZE =
      [PAGE_SIZE] := by
    unfold chainOffsets
    rw [if_neg (by decide), hre]
    dsimp only
    rw [if_pos (by rw [hnb, hlen254]; omega)]
  exact (header_page_never_rewritten 1
    { header := { NexoraHeader.default with footer_offset := 2 * PAGE_SIZE },
      footer := NexoraFooter.default,
      disk := List.replicate (2 * PAGE_SIZE) 0 }
    PAGE_SIZE { id := 1, offset := 2 }
    (by rw [hchain]; intro o ho; simp at ho; subst ho; exact le_rfl)
    (by show PAGE_SIZE ≤ 2 * PAGE_SIZE; decide)
    (by rw [List.length_replicate]; decide)).1

/-! ## The load magic check against a freshly serialized image -/

/-- The first six bytes of any serialized file image are the first six
little-endian bytes of `header.footer_offset` (the header field written at
byte 0), not the magic (written at byte 16). -/
theorem serialize_take_six (f : NexoraFile) :
    f.serialize.take 6 = (u64leBytes f.header.footer_offset).take 6 := by
  unfold NexoraFile.serialize
  rw [List.take_append_eq_append_take]
  have h : 6 - (u64leBytes f.header.footer_offset).length = 0 := by
    rw [u64leBytes_length]
  rw [h, List.take_zero, List.append_nil]

theorem serialize_length_ge_six (f : NexoraFile) : 6 ≤ f.serialize.length := by
  unfold NexoraFile.serialize
  rw [List.length_append, u64leBytes_length]
  omega

/-- `load` fails with the invalid-magic error on any file whose first six
bytes do not match the signature. -/
theorem load_bad_magic (disk buffer : List Nat)
    (h : readExact disk 0 6 = some buffer)
    (hbad : NexoraHeader.verify_magic buffer = false) :
    load disk = .error (.Corrupted .InvalidMagicValue) := by
  unfold load
  rw [h]
  dsimp only
  rw [hbad]
  rw [if_neg (by decide)]

/-- C1 evidence.  `load` on the 10-page image of a default `NexoraFile`
fails with the invalid-magic corruption error: `load` compares the FIRST
six file bytes — the little-endian `footer_offset` `36864`, bytes
`00 90 00 00 00 00` — against the magic signature that
`NexoraFile::serialize` wrote at byte 16, so the end-to-end reopen of the
claim (and of main.rs, which unwraps this very call) cannot succeed. -/
theorem load_rejects_default_image :
    loadError NexoraFile.default.serialize =
      some (.Corrupted .InvalidMagicValue) ∧
    NexoraFile.default.serialize.take 6 = [0, 144, 0, 0, 0, 0] ∧
    NexoraHeader.verify_magic [0, 144, 0, 0, 0, 0] = false := by
  have h6 : NexoraFile.default.serialize.take 6 = [0, 144, 0, 0, 0, 0] := by
    rw [serialize_take_six]
    rfl
  have hm : readExact NexoraFile.default.serialize 0 6 =
      some (NexoraFile.default.serialize.take 6) := by
    unfold readExact
    rw [if_pos (by have := serialize_length_ge_six NexoraFile.default; omega),
      List.drop_zero]
  have herr := load_bad_magic NexoraFile.default.serialize [0, 144, 0, 0, 0, 0]
    (hm.trans (congrArg some h6)) (by decide)
  refine ⟨?_, h6, by decide⟩
  unfold loadError
  rw [herr]
  rfl

end Nexora
